import Mathlib

/-!
Verification of the parallel-graph worker pool (os_threadpool.c, parallel.c)
against its specification, by a shallow embedding of the C sources in Lean.

The task queue (`os_threadpool_t`) is a doubly linked list with a sentinel
`head`; the list is embedded as `List α` ordered from `head.next` (front) to
`head.prev` (back).  `enqueue_task` links the new task at `head.prev` (the
back); `dequeue_task` removes the task at `head.prev` (the back), so the queue
retrieves in LIFO order.
-/

namespace ParallelGraph

/-- State of an `os_threadpool_t`: the task counter `num_tasks` (an unsigned
int in the source, embedded as `Nat`), the shutdown flag `finished`, and the
intrusive list of queued tasks, listed from `head.next` to `head.prev`. -/
structure Threadpool (α : Type) where
  num_tasks : Nat
  finished : Bool
  queue : List α
deriving DecidableEq

/-- Queue state produced by `create_threadpool`: empty list (`list_init`),
`num_tasks = 0`, `finished = false`. -/
def create_threadpool_state (α : Type) : Threadpool α :=
  { num_tasks := 0, finished := false, queue := [] }

/-- `enqueue_task`: under the queue lock, increments `num_tasks` and links the
task in front of `head` (i.e. at `head.prev`, the back of the list). -/
def enqueue_task {α : Type} (tp : Threadpool α) (t : α) : Threadpool α :=
  { tp with num_tasks := tp.num_tasks + 1, queue := tp.queue ++ [t] }

/-- `dequeue_task`, from the point where the wait loop has exited: if
`num_tasks <= 0` it unlocks and returns NULL (`none`); otherwise it decrements
`num_tasks`, takes the task at `head.prev` (the back of the list, the most
recently enqueued task) and unlinks it (`list_del`). -/
def dequeue_task {α : Type} (tp : Threadpool α) : Option α × Threadpool α :=
  if tp.num_tasks = 0 then (none, tp)
  else
    match tp.queue.getLast? with
    | none => (none, tp)
    | some t =>
        (some t, { tp with num_tasks := tp.num_tasks - 1, queue := tp.queue.dropLast })

/-- One iteration of `thread_loop_function`: call `dequeue_task`; if it
returns NULL the loop breaks (`none`), otherwise the dequeued task is the one
executed and the loop continues with the updated queue state. -/
def thread_loop_step {α : Type} (tp : Threadpool α) : Option (α × Threadpool α) :=
  match dequeue_task tp with
  | (none, _) => none
  | (some t, tp') => some (t, tp')

/-- `wait_for_completion`, queue-state part: sets the `finished` flag under
the queue lock (the joins do not change the queue state). -/
def wait_for_completion_state {α : Type} (tp : Threadpool α) : Threadpool α :=
  { tp with finished := true }

/-- C2: the queue retrieves in strict LIFO order.  `dequeue_task` after
`enqueue_task tp t` returns `t` (the most recently enqueued task, for any
prior queue state), and from an empty pool, enqueuing `t1, t2, t3` and then
dequeuing three times yields `t3, t2, t1`. -/
theorem dequeue_task_lifo {α : Type} (tp : Threadpool α) (t t1 t2 t3 : α) :
    (dequeue_task (enqueue_task tp t)).1 = some t ∧
    (dequeue_task (enqueue_task (enqueue_task (enqueue_task
        (create_threadpool_state α) t1) t2) t3)).1 = some t3 ∧
    (dequeue_task (dequeue_task (enqueue_task (enqueue_task (enqueue_task
        (create_threadpool_state α) t1) t2) t3)).2).1 = some t2 ∧
    (dequeue_task (dequeue_task (dequeue_task (enqueue_task (enqueue_task (enqueue_task
        (create_threadpool_state α) t1) t2) t3)).2).2).1 = some t1 := by
  refine ⟨?_, ?_, ?_, ?_⟩ <;>
    simp [dequeue_task, enqueue_task, create_threadpool_state, List.getLast?_concat]

/-- C5: the queue invariant `num_tasks = number of linked tasks` is preserved
by both queue operations: `enqueue_task` increments the counter by exactly one
while linking exactly one task, and a successful `dequeue_task` decrements the
counter by exactly one while unlinking exactly one task. -/
theorem queue_count_invariant {α : Type} (tp : Threadpool α) (t : α)
    (h : tp.num_tasks = tp.queue.length) :
    ((enqueue_task tp t).num_tasks = tp.num_tasks + 1 ∧
     (enqueue_task tp t).queue.length = tp.queue.length + 1 ∧
     (enqueue_task tp t).num_tasks = (enqueue_task tp t).queue.length) ∧
    (∀ x : α, ∀ tp' : Threadpool α, dequeue_task tp = (some x, tp') →
     tp'.num_tasks = tp.num_tasks - 1 ∧
     tp'.queue.length = tp.queue.length - 1 ∧
     tp'.num_tasks = tp'.queue.length) := by
  constructor
  · exact ⟨rfl, by simp [enqueue_task], by simp [enqueue_task, h]⟩
  · intro x tp' hx
    unfold dequeue_task at hx
    by_cases h0 : tp.num_tasks = 0
    · simp [h0] at hx
    · rw [if_neg h0] at hx
      rcases hq : tp.queue.getLast? with _ | y
      · rw [hq] at hx; simp at hx
      · rw [hq] at hx
        have hqne : tp.queue ≠ [] := by
          intro hnil; rw [hnil] at hq; simp at hq
        have htp' : tp' = { tp with num_tasks := tp.num_tasks - 1,
                                    queue := tp.queue.dropLast } := by
          have := hx.symm
          exact congrArg Prod.snd this
        subst htp'
        exact ⟨rfl, by simp [List.length_dropLast], by simp [List.length_dropLast, h]⟩

/-- Witness for C5 at a concrete queue state. -/
theorem queue_count_invariant_witness :
    ((3 : Nat) = [10, 20, 30].length) ∧
    (enqueue_task (Threadpool.mk 3 false [10, 20, 30]) 40).num_tasks = 4 ∧
    (dequeue_task (Threadpool.mk 3 false [10, 20, 30])).2.num_tasks = 2 := by
  have h := queue_count_invariant (Threadpool.mk 3 false [10, 20, 30]) 40 (by decide)
  have hd : dequeue_task (Threadpool.mk 3 false [10, 20, 30]) =
      (some 30, Threadpool.mk 2 false [10, 20]) := by decide
  refine ⟨by decide, h.1.1, ?_⟩
  rw [hd, (h.2 30 (Threadpool.mk 2 false [10, 20]) hd).1]
  decide

/-- C3: once the wait loop of `dequeue_task` has exited (which requires the
queue to be non-empty or `finished` to be set), and under the queue invariant
`num_tasks = queue length`, `dequeue_task` returns the NULL sentinel iff the
queue is empty and the shutdown flag is set; in particular with `finished` set
but a non-empty queue it still returns a task.  The worker loop breaks exactly
when the sentinel is returned: `thread_loop_step` is `none` iff the queue is
empty with `finished` set. -/
theorem dequeue_none_iff_empty_and_finished {α : Type} (tp : Threadpool α)
    (hinv : tp.num_tasks = tp.queue.length)
    (hwait : ¬(tp.queue = [] ∧ tp.finished = false)) :
    ((dequeue_task tp).1 = none ↔ (tp.queue = [] ∧ tp.finished = true)) ∧
    (thread_loop_step tp = none ↔ (tp.queue = [] ∧ tp.finished = true)) := by
  have hmain : (dequeue_task tp).1 = none ↔ (tp.queue = [] ∧ tp.finished = true) := by
    by_cases hq : tp.queue = []
    · have hfin : tp.finished = true := by
        rcases Bool.eq_false_or_eq_true tp.finished with hf | hf
        · exact hf
        · exact absurd ⟨hq, hf⟩ hwait
      have h0 : tp.num_tasks = 0 := by rw [hinv, hq]; rfl
      simp [dequeue_task, h0, hq, hfin]
    · have h0 : tp.num_tasks ≠ 0 := by
        rw [hinv]
        simpa [List.length_eq_zero] using hq
      rcases List.getLast?_eq_none_iff.not.mpr hq |> Option.ne_none_iff_exists'.mp
        with ⟨y, hy⟩
      simp [dequeue_task, h0, hy, hq]
  refine ⟨hmain, ?_⟩
  rw [← hmain]
  unfold thread_loop_step
  rcases hd : dequeue_task tp with ⟨r, tp'⟩
  cases r <;> simp

/-- Witness for C3: shutdown flag set with a non-empty queue still yields a
task, and the iff instantiates. -/
theorem dequeue_none_iff_witness :
    ((1 : Nat) = [5].length) ∧
    ¬(([5] : List Nat) = [] ∧ true = false) ∧
    ((dequeue_task (Threadpool.mk 1 true [5])).1 = none ↔
      (([5] : List Nat) = [] ∧ true = true)) := by
  refine ⟨by decide, by decide, ?_⟩
  exact (dequeue_none_iff_empty_and_finished (Threadpool.mk 1 true [5])
    (by decide) (by decide)).1

/-!
Graph traversal (parallel.c).  The graph comes from the external `os_graph`
collaborator: `num_nodes` nodes, each with a value (`node->info`, embedded as
`Int`) and a neighbour index list.  The per-node `visited` flag
(NOT_VISITED / DONE) is embedded as `Bool` (`false` = NOT_VISITED,
`true` = DONE), and the shared running total `sum` as `Int`.
-/

/-- The graph exposed by `os_graph`: node count, per-node value (`info`), and
per-node neighbour index list. -/
structure Graph where
  num_nodes : Nat
  info : Nat → Int
  neighbours : Nat → List Nat

/-- A well-formed graph for the traversal: at least one node (the seed, node
0, must exist) and neighbour indices in range. -/
def Graph.Valid (g : Graph) : Prop :=
  0 < g.num_nodes ∧ ∀ i, i < g.num_nodes → ∀ j ∈ g.neighbours i, j < g.num_nodes

/-- The shared mutable state of parallel.c: the `visited` array, the running
total `sum`, and the threadpool `tp`, whose queued tasks each carry a node
index (the `uint` argument of `process_node`). -/
structure SharedState where
  visited : Nat → Bool
  sum : Int
  tp : Threadpool Nat

/-- `process_node` (parallel.c): under the graph lock, if the node is already
DONE do nothing; otherwise add its value to `sum`, mark it DONE, and for each
neighbour still NOT_VISITED (checked against the updated array, in which `idx`
is already DONE) create a task carrying the neighbour index and enqueue it. -/
def process_node (g : Graph) (idx : Nat) (st : SharedState) : SharedState :=
  if st.visited idx = true then st
  else
    { visited := fun k => if k = idx then true else st.visited k,
      sum := st.sum + g.info idx,
      tp := ((g.neighbours idx).filter
          (fun j => !(if j = idx then true else st.visited j))).foldl enqueue_task st.tp }

/-- The state after the setup in `main`: `sum = 0`, every `visited` flag
initialized to NOT_VISITED, the threadpool freshly created, and the single
seed task with argument node index 0 enqueued.  It does not depend on the
input graph. -/
def init_shared : SharedState :=
  { visited := fun _ => false,
    sum := 0,
    tp := enqueue_task (create_threadpool_state Nat) 0 }

/-- One scheduler step of the pool draining the queue: some worker removes a
pending task (any one of them: with several workers the task bodies, which are
serialized by the graph lock, may run in any order, so the removed task is
arbitrary rather than the LIFO last) and runs `process_node` on its node
index.  The removal decrements `num_tasks` and unlinks the task. -/
inductive Step (g : Graph) : SharedState → SharedState → Prop
  | pick (st : SharedState) (l₁ l₂ : List Nat) (i : Nat)
      (h : st.tp.queue = l₁ ++ i :: l₂) :
      Step g st (process_node g i
        { st with
          tp := { st.tp with
                  num_tasks := st.tp.num_tasks - 1,
                  queue := l₁ ++ l₂ } })

/-- The nodes reachable from the seed node 0 along neighbour edges. -/
inductive Reach (g : Graph) : Nat → Prop
  | seed : Reach g 0
  | step {i j : Nat} : Reach g i → j ∈ g.neighbours i → Reach g j

theorem reach_lt {g : Graph} (hg : g.Valid) {i : Nat} (h : Reach g i) :
    i < g.num_nodes := by
  induction h with
  | seed => exact hg.1
  | step hi hj ih => exact hg.2 _ ih _ hj

theorem foldl_enqueue_queue {α : Type} (l : List α) (tp : Threadpool α) :
    (l.foldl enqueue_task tp).queue = tp.queue ++ l := by
  induction l generalizing tp with
  | nil => simp
  | cons a l ih => simp [enqueue_task, ih]

/-- The inductive invariant of the drain: every queued node index and every
DONE node is reachable, the total is the sum of the values of the DONE nodes,
every neighbour of a DONE node is DONE or queued, and the seed is DONE or
queued. -/
structure Inv (g : Graph) (st : SharedState) : Prop where
  pend_reach : ∀ i ∈ st.tp.queue, Reach g i
  vis_reach : ∀ i, st.visited i = true → Reach g i
  sum_eq : st.sum =
    ∑ i in Finset.range g.num_nodes, (if st.visited i = true then g.info i else 0)
  closure : ∀ i, st.visited i = true →
    ∀ j ∈ g.neighbours i, st.visited j = true ∨ j ∈ st.tp.queue
  seed_mem : st.visited 0 = true ∨ 0 ∈ st.tp.queue

theorem inv_init (g : Graph) : Inv g init_shared := by
  constructor
  · intro i hi
    simp [init_shared, enqueue_task, create_threadpool_state] at hi
    subst hi; exact Reach.seed
  · intro i hi; simp [init_shared] at hi
  · simp [init_shared]
  · intro i hi; simp [init_shared] at hi
  · right; simp [init_shared, enqueue_task, create_threadpool_state]

theorem inv_step {g : Graph} {st st' : SharedState} (hg : g.Valid)
    (hinv : Inv g st) (hstep : Step g st st') : Inv g st' := by
  rcases hstep with ⟨l₁, l₂, i, h⟩
  have hi_mem : i ∈ st.tp.queue := by rw [h]; simp
  have hi_reach : Reach g i := hinv.pend_reach i hi_mem
  have hmem_old : ∀ j, j ∈ l₁ ++ l₂ → j ∈ st.tp.queue := by
    intro j hj; rw [h]
    rcases List.mem_append.mp hj with hj | hj
    · exact List.mem_append.mpr (Or.inl hj)
    · exact List.mem_append.mpr (Or.inr (List.mem_cons_of_mem _ hj))
  have hsplit : ∀ j, j ∈ st.tp.queue → j = i ∨ j ∈ l₁ ++ l₂ := by
    intro j hj; rw [h] at hj
    rcases List.mem_append.mp hj with hj | hj
    · exact Or.inr (List.mem_append.mpr (Or.inl hj))
    · rcases List.mem_cons.mp hj with hj | hj
      · exact Or.inl hj
      · exact Or.inr (List.mem_append.mpr (Or.inr hj))
  by_cases hv : st.visited i = true
  · -- already DONE: process_node is a no-op on visited, sum, and enqueues
    rw [process_node, if_pos hv]
    constructor
    · intro j hj; exact hinv.pend_reach j (hmem_old j hj)
    · exact hinv.vis_reach
    · exact hinv.sum_eq
    · intro a ha j hj
      rcases hinv.closure a ha j hj with hd | hq
      · exact Or.inl hd
      · rcases hsplit j hq with rfl | hq
        · exact Or.inl hv
        · exact Or.inr hq
    · rcases hinv.seed_mem with hd | hq
      · exact Or.inl hd
      · rcases hsplit 0 hq with rfl | hq
        · exact Or.inl hv
        · exact Or.inr hq
  · -- NOT_VISITED: mark DONE, add the value, enqueue the unvisited neighbours
    have hvf : st.visited i = false := by
      rcases Bool.eq_false_or_eq_true (st.visited i) with hf | hf
      · exact absurd hf hv
      · exact hf
    rw [process_node, if_neg (by simp [hvf])]
    have hin : i < g.num_nodes := reach_lt hg hi_reach
    have hqueue : (((g.neighbours i).filter
        (fun j => !(if j = i then true else st.visited j))).foldl enqueue_task
          { st.tp with num_tasks := st.tp.num_tasks - 1, queue := l₁ ++ l₂ }).queue =
        (l₁ ++ l₂) ++ (g.neighbours i).filter
          (fun j => !(if j = i then true else st.visited j)) := by
      exact foldl_enqueue_queue _ _
    constructor
    · intro j hj
      rw [hqueue] at hj
      rcases List.mem_append.mp hj with hj | hj
      · exact hinv.pend_reach j (hmem_old j hj)
      · exact Reach.step hi_reach (List.mem_of_mem_filter hj)
    · intro k hk
      by_cases hk_i : k = i
      · exact hk_i ▸ hi_reach
      · simp only [if_neg hk_i] at hk
        exact hinv.vis_reach k hk
    · -- the new total is the old total plus the value of node i
      have hself : ∀ k, (if k = i then true else st.visited k) =
          (if k = i then true else st.visited k) := fun _ => rfl
      have hsum_old := hinv.sum_eq
      have hmem : i ∈ Finset.range g.num_nodes := Finset.mem_range.mpr hin
      have hnew : ∑ k in Finset.range g.num_nodes,
            (if (if k = i then true else st.visited k) = true then g.info k else 0) =
          (∑ k in (Finset.range g.num_nodes).erase i,
            (if st.visited k = true then g.info k else 0)) + g.info i := by
        rw [← Finset.sum_erase_add _ _ hmem]
        congr 1
        · apply Finset.sum_congr rfl
          intro k hk
          have hk_ne : k ≠ i := Finset.ne_of_mem_erase hk
          simp [hk_ne]
        · simp
      have hold : ∑ k in Finset.range g.num_nodes,
            (if st.visited k = true then g.info k else 0) =
          (∑ k in (Finset.range g.num_nodes).erase i,
            (if st.visited k = true then g.info k else 0)) := by
        rw [← Finset.sum_erase_add _ _ hmem, hvf]
        simp
      show st.sum + g.info i = _
      rw [hnew, hsum_old, hold]
    · intro a ha j hj
      rw [hqueue]
      by_cases ha_i : a = i
      · subst ha_i
        by_cases hj_vis : (if j = a then true else st.visited j) = true
        · exact Or.inl hj_vis
        · refine Or.inr (List.mem_append.mpr (Or.inr ?_))
          refine List.mem_filter.mpr ⟨hj, ?_⟩
          simp only [Bool.not_eq_true'] at hj_vis ⊢
          simp [Bool.eq_false_iff, hj_vis]
      · simp only [if_neg ha_i] at ha
        rcases hinv.closure a ha j hj with hd | hq
        · left
          by_cases hj_i : j = i
          · simp [hj_i]
          · simpa [hj_i] using hd
        · rcases hsplit j hq with rfl | hq
          · left; simp
          · exact Or.inr (List.mem_append.mpr (Or.inl hq))
    · rw [hqueue]
      by_cases h0 : 0 = i
      · left; simp [← h0]
      · rcases hinv.seed_mem with hd | hq
        · left; simpa [h0] using hd
        · rcases hsplit 0 hq with h0' | hq
          · exact absurd h0' h0
          · exact Or.inr (List.mem_append.mpr (Or.inl hq))

theorem inv_run {g : Graph} (hg : g.Valid) {st st' : SharedState}
    (h : Relation.ReflTransGen (Step g) st st') (hs : Inv g st) : Inv g st' := by
  induction h with
  | refl => exact hs
  | tail _ hbc ih => exact inv_step hg ih hbc

theorem inv_terminal {g : Graph} {st : SharedState} (hinv : Inv g st)
    (hdone : st.tp.queue = []) : ∀ i, st.visited i = true ↔ Reach g i := by
  intro i
  constructor
  · exact hinv.vis_reach i
  · intro hr
    induction hr with
    | seed =>
        rcases hinv.seed_mem with hd | hq
        · exact hd
        · rw [hdone] at hq; simp at hq
    | step hij hmem ih =>
        rcases hinv.closure _ ih _ hmem with hd | hq
        · exact hd
        · rw [hdone] at hq; simp at hq

/-- C4: for a node whose visited flag is already DONE, `process_node` is a
no-op: the shared total, every visited flag and the task queue are all left
unchanged (the whole state is returned as is), and no error is reported:
`process_node` has no error outcome at all. -/
theorem process_node_done_noop (g : Graph) (idx : Nat) (st : SharedState)
    (h : st.visited idx = true) : process_node g idx st = st := by
  rw [process_node, if_pos h]

/-- A state in which node 0 is already DONE, used to instantiate C4. -/
def ex_done_state : SharedState :=
  { visited := fun k => decide (k = 0), sum := 10, tp := create_threadpool_state Nat }

/-- Witness for C4 at a concrete already-DONE node. -/
theorem process_node_done_noop_witness :
    process_node (Graph.mk 1 (fun _ => 10) (fun _ => [])) 0 ex_done_state =
      ex_done_state :=
  process_node_done_noop (Graph.mk 1 (fun _ => 10) (fun _ => [])) 0 ex_done_state
    (by decide)

/-- The spec's example graph: nodes 0, 1, 2 with values 10, 20, 30 and edges
0 → [1, 2], 1 → [2], 2 → [], together with node 3 of value 99 that is
unreachable from the seed node 0. -/
def exG : Graph :=
  { num_nodes := 4,
    info := fun i => [(10 : Int), 20, 30, 99].getD i 0,
    neighbours := fun i => [[1, 2], [2], [], []].getD i [] }

theorem exG_valid : exG.Valid := by
  refine ⟨by decide, ?_⟩
  show ∀ i, i < 4 → ∀ j ∈ exG.neighbours i, j < 4
  decide

theorem not_reach_exG_3 : ¬ Reach exG 3 := by
  have hmem : ∀ i, 3 ∉ exG.neighbours i := by
    intro i
    rcases i with _ | (_ | (_ | (_ | n)))
    · decide
    · decide
    · decide
    · decide
    · show 3 ∉ ([[1, 2], [2], [], []].getD (n + 4) [])
      rw [List.getD_eq_default]
      · simp
      · simp
  intro h
  cases h with
  | step hi hj => exact hmem _ hj

/-- The drain of the example graph in the order 0, 2, 1 (the order a single
worker would use, given the LIFO queue). -/
def exS1 : SharedState :=
  process_node exG 0
    { init_shared with
      tp := { init_shared.tp with
              num_tasks := init_shared.tp.num_tasks - 1,
              queue := [] } }

def exS2 : SharedState :=
  process_node exG 2
    { exS1 with
      tp := { exS1.tp with
              num_tasks := exS1.tp.num_tasks - 1,
              queue := [1] } }

def exS3 : SharedState :=
  process_node exG 1
    { exS2 with
      tp := { exS2.tp with
              num_tasks := exS2.tp.num_tasks - 1,
              queue := [] } }

theorem exG_run : Relation.ReflTransGen (Step exG) init_shared exS3 :=
  Relation.ReflTransGen.head (Step.pick init_shared [] [] 0 rfl)
    (Relation.ReflTransGen.head (Step.pick exS1 [1] [] 2 rfl)
      (Relation.ReflTransGen.head (Step.pick exS2 [] [] 1 rfl)
        Relation.ReflTransGen.refl))

/-- C1: for any valid finite graph, after the pool is drained starting from
the single seed task (any interleaving of any number of workers, since `Step`
removes an arbitrary pending task), a node is DONE iff it is reachable from
the seed, and the accumulated total is the sum of the values of exactly the
DONE (: reachable) nodes, each counted once; unreachable nodes contribute
nothing. -/
theorem drain_marks_reachable_and_sums (g : Graph) (hg : g.Valid)
    (st : SharedState) (hrun : Relation.ReflTransGen (Step g) init_shared st)
    (hdone : st.tp.queue = []) :
    (∀ i, st.visited i = true ↔ Reach g i) ∧
    st.sum = ∑ i in Finset.range g.num_nodes,
      (if st.visited i = true then g.info i else 0) := by
  have hinv := inv_run hg hrun (inv_init g)
  exact ⟨inv_terminal hinv hdone, hinv.sum_eq⟩

/-- Witness for C1: on the spec's example graph the drained total is
10 + 20 + 30 = 60 and the unreachable node 3 (value 99) is excluded. -/
theorem drain_marks_reachable_and_sums_witness :
    exG.Valid ∧ exS3.tp.queue = [] ∧ exS3.visited 0 = true ∧
    exS3.visited 3 = false ∧ exS3.sum = 60 := by
  have h := drain_marks_reachable_and_sums exG exG_valid exS3 exG_run rfl
  refine ⟨exG_valid, rfl, (h.1 0).mpr Reach.seed, ?_, h.2.trans (by decide)⟩
  exact Bool.eq_false_iff.mpr (fun ht => not_reach_exG_3 ((h.1 3).mp ht))

/-- C9: the traversal is seeded with exactly one task whose argument is node
index 0, whatever the input graph is (`init_shared` does not depend on the
graph), no other external submission exists (every other enqueue happens
inside `process_node`, i.e. inside a worker), and after the drain every node
unreachable from node 0 still has `visited = NOT_VISITED`. -/
theorem seed_task_and_unreachable_untouched (g : Graph) (hg : g.Valid)
    (st : SharedState) (hrun : Relation.ReflTransGen (Step g) init_shared st)
    (hdone : st.tp.queue = []) :
    init_shared.tp.queue = [0] ∧
    ∀ i, ¬Reach g i → st.visited i = false := by
  have hinv := inv_run hg hrun (inv_init g)
  refine ⟨rfl, ?_⟩
  intro i hi
  exact Bool.eq_false_iff.mpr (fun ht => hi (hinv.vis_reach i ht))

/-- Witness for C9: node 3 of the example graph is unreachable and stays
NOT_VISITED. -/
theorem seed_task_and_unreachable_untouched_witness :
    exG.Valid ∧ exS3.tp.queue = [] ∧ init_shared.tp.queue = [0] ∧
    exS3.visited 3 = false := by
  have h := seed_task_and_unreachable_untouched exG exG_valid exS3 exG_run rfl
  exact ⟨exG_valid, rfl, h.1, h.2 3 not_reach_exG_3⟩

/-!
Lock-acquisition traces.  Each function of the core is abstracted by the
sequence of mutex operations it performs: `enqueue_task` and `dequeue_task`
lock and unlock the queue mutex; `process_node` locks the graph mutex, calls
`enqueue_task` once per neighbour it submits, and unlocks the graph mutex.
-/

/-- A mutex operation on one of the two locks of the program. -/
inductive LockEvent : Type
  | lock_graph
  | unlock_graph
  | lock_queue
  | unlock_queue
deriving DecidableEq

/-- Lock operations performed by one call to `enqueue_task`
(os_threadpool.c): lock the queue mutex, unlock it. -/
def enqueue_lock_trace : List LockEvent :=
  [LockEvent.lock_queue, LockEvent.unlock_queue]

/-- Lock operations performed by one call to `dequeue_task`: lock the queue
mutex, unlock it (condition-variable waits release and reacquire the same
mutex and touch no other lock). -/
def dequeue_lock_trace : List LockEvent :=
  [LockEvent.lock_queue, LockEvent.unlock_queue]

/-- Lock operations performed by one call to `process_node` (parallel.c):
lock the graph mutex; if the node is not yet DONE, one `enqueue_task` call —
hence one queue lock/unlock pair — per neighbour still NOT_VISITED; unlock
the graph mutex.  The `enqueue_task` calls happen before the graph mutex is
released. -/
def process_node_lock_trace (g : Graph) (idx : Nat) (v : Nat → Bool) :
    List LockEvent :=
  LockEvent.lock_graph ::
    ((if v idx = true then []
      else List.flatten (((g.neighbours idx).filter
        (fun j => !(if j = idx then true else v j))).map
          (fun _ => enqueue_lock_trace))) ++ [LockEvent.unlock_graph])

/-- Lock operations of one worker-loop iteration: a `dequeue_task` call
followed, when a task was obtained, by its action `process_node`
(`destroy_task` takes no lock). -/
def worker_iteration_lock_trace (g : Graph) (idx : Nat) (v : Nat → Bool) :
    List LockEvent :=
  dequeue_lock_trace ++ process_node_lock_trace g idx v

/-- Given which locks are currently held, does some point of the trace have
both locks held at once? -/
def both_held_from : Bool → Bool → List LockEvent → Bool
  | gh, qh, [] => gh && qh
  | gh, qh, LockEvent.lock_graph :: rest => (gh && qh) || both_held_from true qh rest
  | gh, qh, LockEvent.unlock_graph :: rest => (gh && qh) || both_held_from false qh rest
  | gh, qh, LockEvent.lock_queue :: rest => (gh && qh) || both_held_from gh true rest
  | gh, qh, LockEvent.unlock_queue :: rest => (gh && qh) || both_held_from gh false rest

/-- Given which locks are currently held, does the trace ever acquire the
graph lock while the queue lock is held?  (The absence of this, together with
the queue-lock sections taking no further lock, is what rules out a
lock-ordering cycle.) -/
def graph_acquired_under_queue : Bool → Bool → List LockEvent → Bool
  | _, _, [] => false
  | _, qh, LockEvent.lock_graph :: rest => qh || graph_acquired_under_queue true qh rest
  | _, qh, LockEvent.unlock_graph :: rest => graph_acquired_under_queue false qh rest
  | gh, _, LockEvent.lock_queue :: rest => graph_acquired_under_queue gh true rest
  | gh, _, LockEvent.unlock_queue :: rest => graph_acquired_under_queue gh false rest

/-- C6 counterexample: the claim that no execution path holds both locks
simultaneously is false.  Processing node 0 of the example graph with no node
visited yet reaches a point (inside `enqueue_task`, called from
`process_node`) where the queue lock is held while the graph lock is still
held. -/
theorem both_locks_held_on_enqueue_path :
    both_held_from false false
      (process_node_lock_trace exG 0 (fun _ => false)) = true := by
  decide

theorem graph_acquired_under_queue_join (l : List Nat) :
    graph_acquired_under_queue true false
      (List.flatten (l.map (fun _ => enqueue_lock_trace)) ++
        [LockEvent.unlock_graph]) = false := by
  induction l with
  | nil => rfl
  | cons a l ih =>
      simpa [enqueue_lock_trace, graph_acquired_under_queue] using ih

/-- C6 (amended): the graph lock is never acquired while the queue lock is
held — neither in a worker iteration (a `dequeue_task` call followed by
`process_node` on any node with any visited state, including the
`enqueue_task` calls made under the graph lock) nor in a bare `enqueue_task`
call.  The queue lock is, however, held together with the graph lock inside
the `enqueue_task` calls that `process_node` makes, so lock acquisition
follows the single fixed order graph-then-queue and no cyclic wait can
arise. -/
theorem no_graph_lock_acquired_under_queue_lock (g : Graph) (idx : Nat)
    (v : Nat → Bool) :
    graph_acquired_under_queue false false
      (worker_iteration_lock_trace g idx v) = false ∧
    graph_acquired_under_queue false false enqueue_lock_trace = false := by
  refine ⟨?_, rfl⟩
  by_cases hv : v idx = true
  · simp [worker_iteration_lock_trace, dequeue_lock_trace,
      process_node_lock_trace, hv, graph_acquired_under_queue]
  · simp only [worker_iteration_lock_trace, dequeue_lock_trace,
      process_node_lock_trace, hv, if_false, List.cons_append, List.nil_append,
      graph_acquired_under_queue, Bool.false_or]
    simpa [hv] using graph_acquired_under_queue_join
      ((g.neighbours idx).filter (fun j => !(if j = idx then true else v j)))

/-!
Error handling of the primitive calls.  Each call site of a pthread primitive
is embedded by the return code the primitive reports; `DIE(cond, msg)`
terminates the process (embedded as `Except.error msg`) exactly when `cond`
holds.
-/

/-- The `pthread_join` loop at the end of `wait_for_completion`: each join's
return code is checked with `DIE(... != 0, "pthread_join")`. -/
def join_threads : List Int → Except String Unit
  | [] => Except.ok ()
  | rc :: rest => if rc ≠ 0 then Except.error "pthread_join" else join_threads rest

/-- `wait_for_completion` (os_threadpool.c), embedded over the return codes
of its primitive calls, in source order: `pthread_mutex_lock` checked by DIE,
the `finished` flag set, `pthread_cond_broadcast` checked by DIE, then
`pthread_mutex_unlock` called with its return code NOT checked (the one call
in the file without a DIE wrapper), then the join loop. -/
def wait_for_completion_rc (rc_lock rc_broadcast rc_unlock : Int)
    (rc_joins : List Int) : Except String Unit :=
  if rc_lock ≠ 0 then Except.error "pthread_mutex_lock"
  else if rc_broadcast ≠ 0 then Except.error "pthread_cond_broadcast"
  else
    -- source line: `pthread_mutex_unlock(&tp->mutex_queue);` — the return
    -- code `rc_unlock` is discarded, no DIE, so it cannot cause termination
    join_threads rc_joins

/-- C7 exhibit (code bug): `pthread_mutex_unlock` in `wait_for_completion`
reporting the error EPERM (1) does not terminate the process: the call's
return value is ignored and `wait_for_completion` completes normally, against
the claim that every lock/unlock/wait/broadcast/join error is fatal. -/
theorem wait_for_completion_ignores_unlock_failure :
    (1 : Int) ≠ 0 ∧
    wait_for_completion_rc 0 0 1 [] = Except.ok () ∧
    wait_for_completion_rc 1 0 0 [] = Except.error "pthread_mutex_lock" := by
  exact ⟨by decide, rfl, rfl⟩

/-- The `pthread_create` loop of `create_threadpool` (os_threadpool.c),
embedded over the return codes of the `pthread_create` calls, one per
requested thread.  The source checks `DIE(rc < 0, "pthread_create")`.  Per
POSIX, `pthread_create` returns 0 on success and a positive error number on
failure, so the returned value counts the threads actually running: those
whose call returned 0. -/
def create_threadpool_threads : List Int → Except String Nat
  | [] => Except.ok 0
  | rc :: rest =>
      if rc < 0 then Except.error "pthread_create"
      else (create_threadpool_threads rest).map
        (fun n => (if rc = 0 then 1 else 0) + n)

/-- C8 exhibit (code bug): a `pthread_create` call reporting EAGAIN (11, a
nonzero error per POSIX) does not trigger `DIE(rc < 0, ...)`, because
`pthread_create` reports failure with a positive error number; the process
does not terminate and `create_threadpool` returns a pool with 0 of the 1
requested threads running. -/
theorem create_threadpool_misses_thread_creation_failure :
    (11 : Int) ≠ 0 ∧ ¬((11 : Int) < 0) ∧
    create_threadpool_threads [11] = Except.ok 0 := by
  exact ⟨by decide, by decide, rfl⟩

/-!
Task destruction (os_threadpool.c, `destroy_task`).
-/

/-- An observable effect of `destroy_task`: the argument destructor being
invoked on the task's argument, or the task object being freed. -/
inductive DestroyEvent (α : Type) : Type
  | called_destroy_arg (a : α)
  | freed_task
deriving DecidableEq

/-- A task as built by `create_task`: the opaque argument and the optional
argument destructor (`NULL` embedded as `none`).  The action pointer plays no
role in destruction and is omitted here. -/
structure Task (α : Type) where
  argument : α
  destroy_arg : Option (α → Unit)

/-- `destroy_task`: if the destructor pointer is non-NULL, invoke it on the
task's argument; in either case, free the task object afterwards. -/
def destroy_task {α : Type} (t : Task α) : List (DestroyEvent α) :=
  match t.destroy_arg with
  | some _ => [DestroyEvent.called_destroy_arg t.argument, DestroyEvent.freed_task]
  | none => [DestroyEvent.freed_task]

/-- C10: `destroy_task` invokes the destructor on the task's argument exactly
when the destructor pointer is non-NULL, frees the task afterwards in every
case (the last event is always the free of the task object), and with a NULL
destructor the argument is left untouched (no destructor event at all). -/
theorem destroy_task_spec {α : Type} (t : Task α) :
    (t.destroy_arg ≠ none →
      destroy_task t =
        [DestroyEvent.called_destroy_arg t.argument, DestroyEvent.freed_task]) ∧
    (t.destroy_arg = none → destroy_task t = [DestroyEvent.freed_task]) ∧
    (destroy_task t).getLast? = some DestroyEvent.freed_task := by
  obtain ⟨a, d⟩ := t
  rcases d with _ | f
  · exact ⟨fun hne => absurd rfl hne, fun _ => rfl, rfl⟩
  · exact ⟨fun _ => rfl, fun hn => absurd hn (Option.some_ne_none f), rfl⟩

/-- Witness for C10, at a task with a destructor and a task without one. -/
theorem destroy_task_spec_witness :
    destroy_task (Task.mk (7 : Nat) (some (fun _ => ()))) =
      [DestroyEvent.called_destroy_arg 7, DestroyEvent.freed_task] ∧
    destroy_task (Task.mk (7 : Nat) none) = [DestroyEvent.freed_task] :=
  ⟨(destroy_task_spec (Task.mk (7 : Nat) (some (fun _ => ())))).1 (by simp),
   (destroy_task_spec (Task.mk (7 : Nat) none)).2.1 rfl⟩

end ParallelGraph
